import Mathlib

/-!
Verification development for the URL-Shortner repository.

The registry (`UrlService` in `Frontend_Test_Submission/src/services/urlService.ts`)
is embedded as pure functions over an explicit state: the JavaScript
`Map<string, ShortenedUrl>` becomes an insertion-ordered list of records
whose key is the record's `shortCode` (the code only ever calls
`set(url.shortCode, url)`, so key = field throughout), and `localStorage`
becomes a `stored` snapshot field written by `saveToStorage`.
Timestamps are integers (milliseconds, as in `Date.getTime()`); the clock,
generated UUIDs, random draws and the browser locale are passed in as
explicit parameters, since the code reads them from the environment.

The logger (`Logging_MIddleware/logger.ts`) is embedded the same way: the
in-memory `logs` array and the `sessionStorage` mirror are the two fields of
a logger state, and the outcome of the fire-and-forget `fetch` is an
explicit parameter of the delivery step. We model the browser context
(`typeof window !== 'undefined'`), where both storage paths are active.
-/

namespace URLShortner

/-- A recorded click (`ClickRecord` in `types/url.ts`); `timestamp` in ms. -/
structure ClickRecord where
  id : String
  timestamp : Int
  source : String
  userLocation : String
deriving DecidableEq, Repr

/-- A shortened-URL record (`ShortenedUrl` in `types/url.ts`); dates in ms. -/
structure ShortenedUrl where
  id : String
  originalUrl : String
  shortCode : String
  expiryDate : Int
  createdAt : Int
  clicks : List ClickRecord
  isExpired : Bool
deriving DecidableEq, Repr

/-- The service state: the in-memory `Map` (insertion-ordered, keyed by
`shortCode`) and the `localStorage` snapshot written by `saveToStorage`. -/
structure UrlState where
  urls : List ShortenedUrl
  stored : List ShortenedUrl
deriving DecidableEq, Repr

/-- Structure `UrlFormData` from `types/url.ts`; an absent `preferredShortcode` is the
empty string, matching the `formData.preferredShortcode || ''` coercion. -/
structure UrlFormData where
  originalUrl : String
  validityMinutes : Int
  preferredShortcode : String
deriving DecidableEq, Repr

/-- Structure `UrlValidationResult` from `types/url.ts`. -/
structure UrlValidationResult where
  isValid : Bool
  error : Option String
deriving DecidableEq, Repr

/-- Character class of the regex `[a-zA-Z0-9]`. -/
def isAlnumChar (c : Char) : Bool :=
  (decide ('a' ≤ c) && decide (c ≤ 'z')) ||
  (decide ('A' ≤ c) && decide (c ≤ 'Z')) ||
  (decide ('0' ≤ c) && decide (c ≤ '9'))

/-- Characters allowed in a URL scheme after the leading letter. -/
def isSchemeChar (c : Char) : Bool :=
  c.isAlpha || c.isDigit || decide (c = '+') || decide (c = '-') || decide (c = '.')

/-- The platform URL parser at the granularity `validateUrl` uses:
`new URL(url)` succeeds only on an absolute URL, one starting with a scheme
(letter, then letters/digits/`+`/`-`/`.`) followed by a colon, and
`urlObj.protocol` is the lower-cased scheme with the trailing colon. -/
def parseProtocol (url : String) : Option String :=
  match url.toList with
  | [] => none
  | c :: rest =>
    if c.isAlpha then
      let schemeRest := rest.takeWhile isSchemeChar
      match rest.drop schemeRest.length with
      | ':' :: _ => some (String.mk (((c :: schemeRest).map Char.toLower) ++ [':']))
      | _ => none
    else none

/-- Function `UrlService.validateUrl` (urlService.ts lines 49-59). -/
def validateUrl (url : String) : UrlValidationResult :=
  match parseProtocol url with
  | none => { isValid := false, error := some "Please enter a valid URL" }
  | some p =>
    if p = "http:" || p = "https:" then { isValid := true, error := none }
    else { isValid := false, error := some "URL must use HTTP or HTTPS protocol" }

/-- Function `UrlService.validateShortcode` (urlService.ts lines 61-79).
The regex test `/^[a-zA-Z0-9]+$/.test(shortcode)` on a string already known
nonempty is the all-characters-alphanumeric check. -/
def validateShortcode (s : UrlState) (shortcode : String) : UrlValidationResult :=
  if shortcode = "" then
    { isValid := true, error := none }
  else if shortcode.toList.all isAlnumChar = false then
    { isValid := false, error := some "Shortcode must contain only alphanumeric characters" }
  else if shortcode.length < 3 || 20 < shortcode.length then
    { isValid := false, error := some "Shortcode must be between 3 and 20 characters" }
  else if s.urls.any (fun v => v.shortCode == shortcode) then
    { isValid := false, error := some "This shortcode is already taken" }
  else
    { isValid := true, error := none }

/-- Function `UrlService.validateValidityMinutes` (urlService.ts lines 81-91); the
argument is an integer here, so `Number.isInteger` holds by typing. -/
def validateValidityMinutes (minutes : Int) : UrlValidationResult :=
  if minutes ≤ 0 then
    { isValid := false, error := some "Validity period must be a positive integer" }
  else if 525600 < minutes then
    { isValid := false, error := some "Validity period cannot exceed 1 year" }
  else
    { isValid := true, error := none }

/-- The 62-character alphabet of `generateShortcode`. -/
def chars : List Char :=
  "abcdefghijklmnopqrstuvwxyzABCDEFGHIJKLMNOPQRSTUVWXYZ0123456789".toList

/-- One candidate of the `generateShortcode` loop: six characters indexed by
consecutive draws `Math.floor(Math.random() * chars.length)`, which the
`stream` oracle supplies as values in `Fin 62`. -/
def candidateAt (stream : Nat → Fin 62) (n : Nat) : String :=
  String.mk ((List.range 6).map (fun i => chars.getD (stream (6 * n + i)).val 'a'))

/-- The `do`/`while` loop of `UrlService.generateShortcode` (urlService.ts
lines 93-105), written with explicit fuel: attempt number `n` builds a
candidate and retries while the registry already has it. `none` means the
fuel ran out before a fresh candidate appeared. -/
def generateShortcodeAux (codes : List String) (stream : Nat → Fin 62) :
    Nat → Nat → Option String
  | 0, _ => none
  | fuel + 1, n =>
    let result := candidateAt stream n
    if codes.contains result then generateShortcodeAux codes stream fuel (n + 1)
    else some result

/-- The loop terminates on some fuel. -/
def GenTerminates (codes : List String) (stream : Nat → Fin 62) : Prop :=
  ∃ fuel r, generateShortcodeAux codes stream fuel 0 = some r

/-- The shortcodes currently in the registry (the `Map` keys). -/
def codesOf (s : UrlState) : List String :=
  s.urls.map (fun u => u.shortCode)

/-- In-place mutation of the single `Map` entry matching `p` (JavaScript
object identity: the found record is updated where it sits). -/
def updateFirst (p : ShortenedUrl → Bool) (f : ShortenedUrl → ShortenedUrl) :
    List ShortenedUrl → List ShortenedUrl
  | [] => []
  | v :: vs => if p v then f v :: vs else v :: updateFirst p f vs

/-- The effect of `Map.set(code, u)`: replace the entry with that key in place, else
append at the end (JavaScript `Map` preserves insertion order). -/
def mapSet (urls : List ShortenedUrl) (code : String) (u : ShortenedUrl) :
    List ShortenedUrl :=
  if urls.any (fun v => v.shortCode == code) then
    updateFirst (fun v => v.shortCode == code) (fun _ => u) urls
  else urls ++ [u]

/-- Function `UrlService.shortenUrl` (urlService.ts lines 117-157). `now` is the
clock reading, `newId` the `crypto.randomUUID()` result, and `gen` the value
`this.generateShortcode()` would return on the auto-generation path. A
thrown `Error` becomes `.error` with the thrown message, and the state is
returned alongside to make the (absence of) mutation explicit.
`mkShortened` is the record `shortenUrl` constructs on success (urlService.ts
lines 133-145): the preferred code when present, else the generated one. -/
def mkShortened (fd : UrlFormData) (now : Int) (newId gen : String) : ShortenedUrl :=
  { id := newId, originalUrl := fd.originalUrl,
    shortCode := if fd.preferredShortcode = "" then gen else fd.preferredShortcode,
    expiryDate := now + fd.validityMinutes * 60 * 1000, createdAt := now,
    clicks := [], isExpired := false }

def shortenUrl (s : UrlState) (fd : UrlFormData) (now : Int) (newId gen : String) :
    Except String ShortenedUrl × UrlState :=
  let uv := validateUrl fd.originalUrl
  if uv.isValid = false then (.error (uv.error.getD ""), s)
  else
    let sv := validateShortcode s fd.preferredShortcode
    if sv.isValid = false then (.error (sv.error.getD ""), s)
    else
      let vv := validateValidityMinutes fd.validityMinutes
      if vv.isValid = false then (.error (vv.error.getD ""), s)
      else
        let u := mkShortened fd now newId gen
        let urls' := mapSet s.urls u.shortCode u
        (.ok u, { urls := urls', stored := urls' })

/-- The in-place `url.isExpired = true` of `getUrlByShortcode`, applied to
the map entry with the given key. -/
def markExpired (code : String) (urls : List ShortenedUrl) : List ShortenedUrl :=
  updateFirst (fun v => v.shortCode == code) (fun v => { v with isExpired := true }) urls

/-- Function `UrlService.getUrlByShortcode` (urlService.ts lines 159-174): look the
code up; when `now > expiryDate`, flag the stored record expired, persist,
and hide it from the caller. -/
def getUrlByShortcode (s : UrlState) (code : String) (now : Int) :
    Option ShortenedUrl × UrlState :=
  match s.urls.find? (fun v => v.shortCode == code) with
  | none => (none, s)
  | some u =>
    if u.expiryDate < now then
      let urls' := markExpired code s.urls
      (none, { urls := urls', stored := urls' })
    else (some u, s)

/-- The push of a fresh `ClickRecord` onto `url.clicks` (urlService.ts
lines 182-189), as the in-place record update it performs. -/
def appendClick (clickId : String) (now : Int) (source loc : String)
    (v : ShortenedUrl) : ShortenedUrl :=
  { v with clicks :=
      v.clicks ++ [{ id := clickId, timestamp := now, source := source, userLocation := loc }] }

/-- Function `UrlService.recordClick` (urlService.ts lines 176-199). `now`, `clickId`
and `loc` stand for the clock, `crypto.randomUUID()` and
`this.getUserLocation()`; the push onto `url.clicks` mutates the record
inside the map. -/
def recordClick (s : UrlState) (code source : String) (now : Int)
    (clickId loc : String) : Bool × UrlState :=
  match getUrlByShortcode s code now with
  | (none, s') => (false, s')
  | (some _, s') =>
    let urls' := updateFirst (fun v => v.shortCode == code)
      (appendClick clickId now source loc) s'.urls
    (true, { urls := urls', stored := urls' })

/-- The comparator `(a, b) => b.createdAt.getTime() - a.createdAt.getTime()`
as a relation: `a` sorts no later than `b` when its `createdAt` is at least
`b`'s (descending order). -/
def createdAtGe (a b : ShortenedUrl) : Prop := b.createdAt ≤ a.createdAt

instance : DecidableRel createdAtGe := fun a b => inferInstanceAs (Decidable (b.createdAt ≤ a.createdAt))

instance : IsTotal ShortenedUrl createdAtGe := ⟨fun a b => le_total b.createdAt a.createdAt⟩

instance : IsTrans ShortenedUrl createdAtGe := ⟨fun _ _ _ h h2 => le_trans h2 h⟩

/-- The per-record flag update `url.isExpired = now > url.expiryDate` of
`getAllUrls`. -/
def refreshExpired (now : Int) (u : ShortenedUrl) : ShortenedUrl :=
  { u with isExpired := decide (u.expiryDate < now) }

/-- Function `UrlService.getAllUrls` (urlService.ts lines 201-214): recompute every
`isExpired` flag against the clock, persist, and return the records sorted
by `createdAt` descending. -/
def getAllUrls (s : UrlState) (now : Int) : List ShortenedUrl × UrlState :=
  let urls' := s.urls.map (refreshExpired now)
  (List.insertionSort createdAtGe urls', { urls := urls', stored := urls' })

/-- Function `UrlService.deleteUrl` (urlService.ts lines 216-223): `Map.delete`
removes the entry with that key and reports whether one existed;
`saveToStorage` runs only when it did. -/
def deleteUrl (s : UrlState) (code : String) : Bool × UrlState :=
  if s.urls.any (fun v => v.shortCode == code) then
    let urls' := s.urls.eraseP (fun v => v.shortCode == code)
    (true, { urls := urls', stored := urls' })
  else (false, s)

/-- The registry of a fresh service (empty map, nothing persisted). -/
def emptyState : UrlState := { urls := [], stored := [] }

/-- A concrete record used to instantiate theorems: created at time 0 with
one minute of validity. -/
def sampleUrl : ShortenedUrl :=
  { id := "id-1", originalUrl := "https://example.com", shortCode := "abc123",
    expiryDate := 60000, createdAt := 0, clicks := [], isExpired := false }

/-- A concrete registry holding `sampleUrl`. -/
def sampleState : UrlState := { urls := [sampleUrl], stored := [sampleUrl] }

/-- The draw stream that always yields index 0 (the character 'a'). -/
def constZeroStream : Nat → Fin 62 := fun _ => ⟨0, by omega⟩

/-! ### Logging middleware (`Logging_MIddleware/logger.ts`) -/

/-- The fixed set of log levels. -/
inductive LogLevel where
  | info | warn | error | debug | fatal
deriving DecidableEq, Repr

/-- Structure `LogEntry` from logger.ts; the free-form `context` payload is
kept as an uninterpreted optional string. -/
structure LogEntry where
  timestamp : String
  stack : String
  level : LogLevel
  package : String
  message : String
  context : Option String
deriving DecidableEq, Repr

/-- The middleware's state: the in-memory `logs` array, the
`sessionStorage` mirror, and the configurable endpoint. -/
structure LoggerState where
  logs : List LogEntry
  sessionLogs : List LogEntry
  testServerEndpoint : String
deriving DecidableEq, Repr

/-- What the environment did with one `fetch` POST: 2xx response, non-2xx
response with its status, or a thrown transport error. -/
inductive DeliveryOutcome where
  | success
  | httpError (status : Nat)
  | transportError
deriving DecidableEq, Repr

/-- Method `LoggingMiddleware.storeInSession` (logger.ts lines 126-143): push the
entry onto the mirrored buffer, then `splice(0, length - 100)` keeps only
the latest 100 entries. -/
def storeInSession (s : LoggerState) (e : LogEntry) : LoggerState :=
  let logs := s.sessionLogs ++ [e]
  let logs := if 100 < logs.length then logs.drop (logs.length - 100) else logs
  { s with sessionLogs := logs }

/-- Method `LoggingMiddleware.addLog` (logger.ts lines 77-85): push onto the
primary buffer, `slice(-1000)` keeps only the latest 1000 entries, then
mirror the entry to session storage. -/
def addLog (s : LoggerState) (e : LogEntry) : LoggerState :=
  let logs := s.logs ++ [e]
  let logs := if 1000 < logs.length then logs.drop (logs.length - 1000) else logs
  storeInSession { s with logs := logs } e

/-- The warn entry `sendToTestServer` writes to session storage when a
delivery fails: `some status` is the non-2xx branch, `none` the catch
branch; the original entry rides along in `context`. -/
def deliveryFailureEntry (now stack : String) (status : Option Nat)
    (orig : LogEntry) : LogEntry :=
  { timestamp := now, stack := stack, level := .warn,
    package := "LoggingMiddleware",
    message := match status with
      | some code => "Failed to send log to test server: " ++ toString code
      | none => "Test server unavailable",
    context := some orig.message }

/-- Method `LoggingMiddleware.sendToTestServer` (logger.ts lines 88-123): POST the
entry once; a non-2xx status or a thrown error only writes a warn entry to
session storage. The returned list records the entries actually POSTed by
this call. `now2`/`stack2` are the clock and stack-trace reads inside the
failure branches. -/
def sendToTestServer (s : LoggerState) (e : LogEntry) (outcome : DeliveryOutcome)
    (now2 stack2 : String) : LoggerState × List LogEntry :=
  match outcome with
  | .success => (s, [e])
  | .httpError status =>
    (storeInSession s (deliveryFailureEntry now2 stack2 (some status) e), [e])
  | .transportError =>
    (storeInSession s (deliveryFailureEntry now2 stack2 none e), [e])

/-- The `LogEntry` the `Log` method constructs. -/
def mkLogEntry (now stack : String) (level : LogLevel) (pkg msg : String)
    (ctx : Option String) : LogEntry :=
  { timestamp := now, stack := stack, level := level, package := pkg,
    message := msg, context := ctx }

/-- Method `LoggingMiddleware.Log` (logger.ts lines 29-41): construct the entry,
add it to the buffers, then fire the delivery attempt. The async delivery is
linearized right after the synchronous buffer writes; its outcome is the
`outcome` parameter. Returns the new state and the entries POSTed. -/
def Log (s : LoggerState) (now stack : String) (level : LogLevel)
    (pkg msg : String) (ctx : Option String) (outcome : DeliveryOutcome)
    (now2 stack2 : String) : LoggerState × List LogEntry :=
  let e := mkLogEntry now stack level pkg msg ctx
  sendToTestServer (addLog s e) e outcome now2 stack2

/-- Method `LoggingMiddleware.getLogs` (logger.ts lines 164-166): a defensive copy
of the primary buffer, which in value semantics is the buffer itself. -/
def getLogs (s : LoggerState) : List LogEntry := s.logs

/-- Method `LoggingMiddleware.clearLogs` (logger.ts lines 169-174). -/
def clearLogs (s : LoggerState) : LoggerState :=
  { s with logs := [], sessionLogs := [] }

/-- One call to `Log` with everything the environment supplies. -/
structure LogCall where
  now : String
  stack : String
  level : LogLevel
  pkg : String
  msg : String
  ctx : Option String
  outcome : DeliveryOutcome
  now2 : String
  stack2 : String
deriving Repr

/-- The entry a call appends to the primary buffer. -/
def entryOf (c : LogCall) : LogEntry :=
  mkLogEntry c.now c.stack c.level c.pkg c.msg c.ctx

/-- The entries a call pushes onto the session mirror: the entry itself,
then the failure entry when delivery did not succeed. -/
def sessionPushesOf (c : LogCall) : List LogEntry :=
  match c.outcome with
  | .success => [entryOf c]
  | .httpError status =>
    [entryOf c, deliveryFailureEntry c.now2 c.stack2 (some status) (entryOf c)]
  | .transportError =>
    [entryOf c, deliveryFailureEntry c.now2 c.stack2 none (entryOf c)]

/-- Run one `Log` call, keeping the state. -/
def runLog (s : LoggerState) (c : LogCall) : LoggerState :=
  (Log s c.now c.stack c.level c.pkg c.msg c.ctx c.outcome c.now2 c.stack2).1

/-- Run a sequence of `Log` calls. -/
def runLogs (s : LoggerState) (cs : List LogCall) : LoggerState :=
  cs.foldl runLog s

/-- The logger of a fresh module load (logger.ts lines 16-18). -/
def initialLogger : LoggerState :=
  { logs := [], sessionLogs := [], testServerEndpoint := "http://localhost:3001/api/logs" }

/-- The last `n` elements of a list (what `slice(-n)` and
`splice(0, length - n)` keep). -/
def lastN (n : Nat) (l : List α) : List α := l.drop (l.length - n)

/-- One call to `recordClick` with everything the environment supplies. -/
structure ClickCall where
  source : String
  now : Int
  clickId : String
  loc : String
deriving DecidableEq, Repr

/-- The `ClickRecord` a call appends. -/
def mkClickOf (c : ClickCall) : ClickRecord :=
  { id := c.clickId, timestamp := c.now, source := c.source, userLocation := c.loc }

/-- Run a sequence of `recordClick` calls against one shortcode. -/
def runClicks (s : UrlState) (code : String) (calls : List ClickCall) : UrlState :=
  calls.foldl (fun st c => (recordClick st code c.source c.now c.clickId c.loc).2) s

/-! ### Helper lemmas -/

theorem lastN_length_le (n : Nat) (l : List α) : (lastN n l).length ≤ n := by
  simp only [lastN, List.length_drop]
  omega

theorem lastN_of_le {n : Nat} {l : List α} (h : l.length ≤ n) : lastN n l = l := by
  simp [lastN, Nat.sub_eq_zero_of_le h]

theorem lastN_lastN_append (n : Nat) (xs ys : List α) :
    lastN n (lastN n xs ++ ys) = lastN n (xs ++ ys) := by
  unfold lastN
  rw [← List.drop_append_of_le_length (Nat.sub_le xs.length n), List.drop_drop]
  congr 1
  simp only [List.length_append, List.length_drop]
  omega

theorem storeInSession_sessionLogs (s : LoggerState) (e : LogEntry) :
    (storeInSession s e).sessionLogs = lastN 100 (s.sessionLogs ++ [e]) := by
  simp only [storeInSession, lastN]
  split
  · rfl
  · rename_i h
    rw [Nat.sub_eq_zero_of_le (by omega), List.drop_zero]

theorem storeInSession_logs (s : LoggerState) (e : LogEntry) :
    (storeInSession s e).logs = s.logs := rfl

theorem addLog_logs (s : LoggerState) (e : LogEntry) :
    (addLog s e).logs = lastN 1000 (s.logs ++ [e]) := by
  simp only [addLog, storeInSession_logs, lastN]
  split
  · rfl
  · rename_i h
    rw [Nat.sub_eq_zero_of_le (by omega), List.drop_zero]

theorem addLog_sessionLogs (s : LoggerState) (e : LogEntry) :
    (addLog s e).sessionLogs = lastN 100 (s.sessionLogs ++ [e]) := by
  simp only [addLog, storeInSession_sessionLogs]

theorem runLog_logs (s : LoggerState) (c : LogCall) :
    (runLog s c).logs = lastN 1000 (s.logs ++ [entryOf c]) := by
  cases c with
  | mk now stack level pkg msg ctx outcome now2 stack2 =>
    cases outcome <;>
      simp [runLog, Log, sendToTestServer, storeInSession_logs, addLog_logs, entryOf]

theorem runLog_sessionLogs (s : LoggerState) (c : LogCall) :
    (runLog s c).sessionLogs = lastN 100 (s.sessionLogs ++ sessionPushesOf c) := by
  cases c with
  | mk now stack level pkg msg ctx outcome now2 stack2 =>
    cases outcome with
    | success =>
      simp [runLog, Log, sendToTestServer, addLog_sessionLogs, sessionPushesOf, entryOf]
    | httpError status =>
      simp only [runLog, Log, sendToTestServer, storeInSession_sessionLogs,
        addLog_sessionLogs, sessionPushesOf, entryOf]
      rw [lastN_lastN_append, List.append_assoc]
      rfl
    | transportError =>
      simp only [runLog, Log, sendToTestServer, storeInSession_sessionLogs,
        addLog_sessionLogs, sessionPushesOf, entryOf]
      rw [lastN_lastN_append, List.append_assoc]
      rfl

theorem runLogs_logs (cs : List LogCall) : ∀ s : LoggerState, s.logs.length ≤ 1000 →
    (runLogs s cs).logs = lastN 1000 (s.logs ++ cs.map entryOf) := by
  induction cs with
  | nil =>
    intro s hs
    simp only [runLogs, List.foldl_nil, List.map_nil, List.append_nil]
    exact (lastN_of_le hs).symm
  | cons c cs ih =>
    intro s _
    simp only [runLogs, List.foldl_cons, List.map_cons]
    rw [show List.foldl runLog (runLog s c) cs = runLogs (runLog s c) cs from rfl]
    rw [ih (runLog s c) (by rw [runLog_logs]; exact lastN_length_le _ _)]
    rw [runLog_logs, lastN_lastN_append, List.append_assoc]
    rfl

theorem runLogs_sessionLogs (cs : List LogCall) : ∀ s : LoggerState,
    s.sessionLogs.length ≤ 100 →
    (runLogs s cs).sessionLogs =
      lastN 100 (s.sessionLogs ++ (cs.map sessionPushesOf).flatten) := by
  induction cs with
  | nil =>
    intro s hs
    simp only [runLogs, List.foldl_nil, List.map_nil, List.flatten_nil, List.append_nil]
    exact (lastN_of_le hs).symm
  | cons c cs ih =>
    intro s _
    simp only [runLogs, List.foldl_cons, List.map_cons, List.flatten_cons]
    rw [show List.foldl runLog (runLog s c) cs = runLogs (runLog s c) cs from rfl]
    rw [ih (runLog s c) (by rw [runLog_sessionLogs]; exact lastN_length_le _ _)]
    rw [runLog_sessionLogs, lastN_lastN_append, List.append_assoc]

theorem find?_updateFirst {p : ShortenedUrl → Bool} {f : ShortenedUrl → ShortenedUrl}
    {l : List ShortenedUrl} {u : ShortenedUrl} (h : l.find? p = some u)
    (hf : p (f u) = true) : (updateFirst p f l).find? p = some (f u) := by
  induction l with
  | nil => simp at h
  | cons v vs ih =>
    by_cases hv : p v
    · rw [List.find?_cons_of_pos vs hv] at h
      obtain rfl : v = u := by injection h
      simp [updateFirst, hv, List.find?_cons_of_pos _ hf]
    · rw [List.find?_cons_of_neg vs hv] at h
      simp only [updateFirst, hv, Bool.false_eq_true, ite_false]
      rw [List.find?_cons_of_neg _ hv]
      exact ih h

theorem mem_updateFirst {p : ShortenedUrl → Bool} {f : ShortenedUrl → ShortenedUrl}
    {l : List ShortenedUrl} {u : ShortenedUrl} (h : l.find? p = some u) :
    f u ∈ updateFirst p f l := by
  induction l with
  | nil => simp at h
  | cons v vs ih =>
    by_cases hv : p v
    · rw [List.find?_cons_of_pos vs hv] at h
      obtain rfl : v = u := by injection h
      simp [updateFirst, hv]
    · rw [List.find?_cons_of_neg vs hv] at h
      simp only [updateFirst, hv, Bool.false_eq_true, ite_false, List.mem_cons]
      exact Or.inr (ih h)

theorem find?_mapSet (l : List ShortenedUrl) (u : ShortenedUrl) :
    (mapSet l u.shortCode u).find? (fun v => v.shortCode == u.shortCode) = some u := by
  unfold mapSet
  by_cases hany : l.any (fun v => v.shortCode == u.shortCode)
  · rw [if_pos hany]
    obtain ⟨w, hw⟩ : ∃ w, l.find? (fun v => v.shortCode == u.shortCode) = some w := by
      have : (l.find? (fun v => v.shortCode == u.shortCode)).isSome := by
        rw [List.find?_isSome]
        simpa [List.any_eq_true] using hany
      exact Option.isSome_iff_exists.mp this
    exact find?_updateFirst hw (by simp)
  · rw [if_neg hany, List.find?_append]
    have hnone : l.find? (fun v => v.shortCode == u.shortCode) = none := by
      rw [List.find?_eq_none]
      intro x hx hpx
      exact hany (List.any_eq_true.mpr ⟨x, hx, hpx⟩)
    simp [hnone]

theorem any_mapSet (l : List ShortenedUrl) (u : ShortenedUrl) :
    (mapSet l u.shortCode u).any (fun v => v.shortCode == u.shortCode) = true := by
  rw [List.any_eq_true]
  exact ⟨u, List.mem_of_find?_eq_some (find?_mapSet l u), by simp⟩

theorem validateValidityMinutes_pos {m : Int}
    (h : (validateValidityMinutes m).isValid = true) : 1 ≤ m := by
  unfold validateValidityMinutes at h
  split at h
  · simp at h
  · omega

theorem lastN_concat_getLast? {n : Nat} (hn : 1 ≤ n) (xs : List α) (e : α) :
    (lastN n (xs ++ [e])).getLast? = some e := by
  unfold lastN
  rw [List.drop_append_of_le_length (by simp; omega)]
  exact List.getLast?_concat _

theorem refreshExpired_idem (now : Int) (u : ShortenedUrl) :
    refreshExpired now (refreshExpired now u) = refreshExpired now u := rfl

theorem map_clicks_updateFirst {p : ShortenedUrl → Bool}
    {f : ShortenedUrl → ShortenedUrl} (hf : ∀ v, (f v).clicks = v.clicks) :
    ∀ l : List ShortenedUrl,
      (updateFirst p f l).map (fun v => v.clicks) = l.map (fun v => v.clicks)
  | [] => rfl
  | v :: vs => by
    by_cases hv : p v
    · simp [updateFirst, hv, hf v]
    · simp [updateFirst, hv, map_clicks_updateFirst hf vs]

theorem shortenUrl_ok_elim {s : UrlState} {fd : UrlFormData} {now : Int}
    {newId gen : String} {u : ShortenedUrl} {s2 : UrlState}
    (h : shortenUrl s fd now newId gen = (.ok u, s2)) :
    (validateUrl fd.originalUrl).isValid = true ∧
    (validateShortcode s fd.preferredShortcode).isValid = true ∧
    (validateValidityMinutes fd.validityMinutes).isValid = true ∧
    u = mkShortened fd now newId gen ∧
    s2 = { urls := mapSet s.urls u.shortCode u, stored := mapSet s.urls u.shortCode u } := by
  unfold shortenUrl at h
  by_cases h1 : (validateUrl fd.originalUrl).isValid = false
  · rw [if_pos h1] at h
    exact absurd (congrArg Prod.fst h) (by simp)
  · rw [if_neg h1] at h
    by_cases h2 : (validateShortcode s fd.preferredShortcode).isValid = false
    · rw [if_pos h2] at h
      exact absurd (congrArg Prod.fst h) (by simp)
    · rw [if_neg h2] at h
      by_cases h3 : (validateValidityMinutes fd.validityMinutes).isValid = false
      · rw [if_pos h3] at h
        exact absurd (congrArg Prod.fst h) (by simp)
      · rw [if_neg h3] at h
        have hu : u = mkShortened fd now newId gen := by
          have := congrArg Prod.fst h
          simp only at this
          injection this.symm
        refine ⟨by simpa using h1, by simpa using h2, by simpa using h3, hu, ?_⟩
        have hs := congrArg Prod.snd h
        simp only at hs
        rw [← hs, hu]

theorem validateShortcode_valid_inv {s : UrlState} {c : String} (hne : c ≠ "")
    (h : (validateShortcode s c).isValid = true) :
    c.toList.all isAlnumChar = true ∧ 3 ≤ c.length ∧ c.length ≤ 20 ∧
    s.urls.any (fun v => v.shortCode == c) = false := by
  unfold validateShortcode at h
  rw [if_neg hne] at h
  by_cases h1 : c.toList.all isAlnumChar = false
  · rw [if_pos h1] at h
    simp at h
  · rw [if_neg h1] at h
    by_cases h2 : (c.length < 3 || 20 < c.length) = true
    · rw [if_pos h2] at h
      simp at h
    · rw [if_neg h2] at h
      by_cases h3 : s.urls.any (fun v => v.shortCode == c) = true
      · rw [if_pos h3] at h
        simp at h
      · simp only [Bool.not_eq_false] at h1
        simp only [Bool.or_eq_true, decide_eq_true_eq, not_or] at h2
        refine ⟨h1, by omega, by omega, by simpa using h3⟩

theorem getUrlByShortcode_live {s : UrlState} {code : String} {u : ShortenedUrl}
    {now : Int} (hfind : s.urls.find? (fun v => v.shortCode == code) = some u)
    (hlive : ¬ u.expiryDate < now) :
    getUrlByShortcode s code now = (some u, s) := by
  unfold getUrlByShortcode
  rw [hfind]
  simp [hlive]

theorem getUrlByShortcode_expired {s : UrlState} {code : String} {u : ShortenedUrl}
    {now : Int} (hfind : s.urls.find? (fun v => v.shortCode == code) = some u)
    (hexp : u.expiryDate < now) :
    getUrlByShortcode s code now =
      (none, { urls := markExpired code s.urls, stored := markExpired code s.urls }) := by
  unfold getUrlByShortcode
  rw [hfind]
  simp [hexp]

theorem recordClick_live_step {s : UrlState} {code : String} {u : ShortenedUrl}
    (source : String) (now : Int) (cid loc : String)
    (hfind : s.urls.find? (fun v => v.shortCode == code) = some u)
    (hlive : ¬ u.expiryDate < now) :
    recordClick s code source now cid loc =
      (true,
        { urls := updateFirst (fun v => v.shortCode == code)
            (appendClick cid now source loc) s.urls,
          stored := updateFirst (fun v => v.shortCode == code)
            (appendClick cid now source loc) s.urls }) := by
  unfold recordClick
  rw [getUrlByShortcode_live hfind hlive]

theorem runClicks_live (code : String) (calls : List ClickCall) :
    ∀ (s : UrlState) (u : ShortenedUrl),
      s.urls.find? (fun v => v.shortCode == code) = some u →
      (∀ c ∈ calls, ¬ u.expiryDate < c.now) →
      ∃ w, (runClicks s code calls).urls.find? (fun v => v.shortCode == code) = some w ∧
        w.clicks = u.clicks ++ calls.map mkClickOf ∧ w.expiryDate = u.expiryDate := by
  induction calls with
  | nil =>
    intro s u hfind _
    exact ⟨u, hfind, by simp, rfl⟩
  | cons c cs ih =>
    intro s u hfind hlive
    have hl : ¬ u.expiryDate < c.now := hlive c (List.mem_cons_self c cs)
    have hstep := recordClick_live_step c.source c.now c.clickId c.loc hfind hl
    have hrun : runClicks s code (c :: cs) =
        runClicks (recordClick s code c.source c.now c.clickId c.loc).2 code cs := rfl
    rw [hrun, hstep]
    have hpu := List.find?_some hfind
    have hpfu : ((appendClick c.clickId c.now c.source c.loc u).shortCode == code) = true := hpu
    have hfind2 := find?_updateFirst hfind hpfu
    obtain ⟨w, hw, hclicks, hexp⟩ :=
      ih { urls := updateFirst (fun v => v.shortCode == code)
             (appendClick c.clickId c.now c.source c.loc) s.urls,
           stored := updateFirst (fun v => v.shortCode == code)
             (appendClick c.clickId c.now c.source c.loc) s.urls }
         (appendClick c.clickId c.now c.source c.loc u) hfind2
         (fun c2 hc2 => hlive c2 (List.mem_cons_of_mem c hc2))
    refine ⟨w, hw, ?_, hexp⟩
    rw [hclicks]
    show (u.clicks ++ [mkClickOf c]) ++ cs.map mkClickOf = u.clicks ++ mkClickOf c :: cs.map mkClickOf
    simp

theorem candidateAt_length (stream : Nat → Fin 62) (n : Nat) :
    (candidateAt stream n).length = 6 := by
  simp [candidateAt, String.length]

theorem chars_getD_alnum : ∀ i : Fin 62, isAlnumChar (chars.getD i.val 'a') = true := by
  decide

theorem candidateAt_alnum (stream : Nat → Fin 62) (n : Nat) :
    (candidateAt stream n).toList.all isAlnumChar = true := by
  rw [List.all_eq_true]
  intro c hc
  simp only [candidateAt, String.toList, List.mem_map] at hc
  obtain ⟨i, _, rfl⟩ := hc
  exact chars_getD_alnum (stream (6 * n + i))

theorem generateShortcodeAux_reaches (codes : List String) (stream : Nat → Fin 62) :
    ∀ (j start : Nat), (∀ m, m < j → candidateAt stream (start + m) ∈ codes) →
      candidateAt stream (start + j) ∉ codes →
      generateShortcodeAux codes stream (j + 1) start =
        some (candidateAt stream (start + j)) := by
  intro j
  induction j with
  | zero =>
    intro start _ hfresh
    rw [Nat.add_zero] at hfresh
    have hstep : generateShortcodeAux codes stream 1 start =
        if codes.contains (candidateAt stream start) = true then
          generateShortcodeAux codes stream 0 (start + 1)
        else some (candidateAt stream start) := rfl
    have hfalse : ¬ codes.contains (candidateAt stream start) = true :=
      fun h => hfresh (List.elem_iff.mp h)
    rw [hstep, if_neg hfalse, Nat.add_zero]
  | succ j ih =>
    intro start hall hfresh
    have h0 : candidateAt stream (start + 0) ∈ codes := hall 0 (Nat.succ_pos j)
    rw [Nat.add_zero] at h0
    have hcont : codes.contains (candidateAt stream start) = true := List.elem_iff.mpr h0
    have hall2 : ∀ m, m < j → candidateAt stream (start + 1 + m) ∈ codes := by
      intro m hm
      have := hall (m + 1) (by omega)
      rwa [show start + (m + 1) = start + 1 + m by omega] at this
    have hfresh2 : candidateAt stream (start + 1 + j) ∉ codes := by
      rwa [show start + 1 + j = start + (j + 1) by omega]
    have hrec := ih (start + 1) hall2 hfresh2
    rw [show start + 1 + j = start + (j + 1) by omega] at hrec
    have hstep : generateShortcodeAux codes stream (j + 1 + 1) start =
        if codes.contains (candidateAt stream start) = true then
          generateShortcodeAux codes stream (j + 1) (start + 1)
        else some (candidateAt stream start) := rfl
    rw [hstep, if_pos hcont, hrec]

theorem generate_nonterminating_aux : ∀ (fuel n : Nat),
    generateShortcodeAux ["aaaaaa"] constZeroStream fuel n = none := by
  intro fuel
  induction fuel with
  | zero => intro n; rfl
  | succ fuel ih =>
    intro n
    have hc : candidateAt constZeroStream n = "aaaaaa" := rfl
    simp [generateShortcodeAux, hc, ih]

/-! ### Claim theorems -/

/-- C2: `shortenUrl` runs the URL, shortcode and validity validations in
that order, fails fast surfacing the first failing validation's error
message, and on any validation failure returns with the registry state —
in-memory records and persisted snapshot alike — unchanged. -/
theorem shortenUrl_fail_fast (s : UrlState) (fd : UrlFormData) (now : Int)
    (newId gen : String) :
    ((validateUrl fd.originalUrl).isValid = false →
      shortenUrl s fd now newId gen =
        (.error ((validateUrl fd.originalUrl).error.getD ""), s)) ∧
    ((validateUrl fd.originalUrl).isValid = true →
      (validateShortcode s fd.preferredShortcode).isValid = false →
      shortenUrl s fd now newId gen =
        (.error ((validateShortcode s fd.preferredShortcode).error.getD ""), s)) ∧
    ((validateUrl fd.originalUrl).isValid = true →
      (validateShortcode s fd.preferredShortcode).isValid = true →
      (validateValidityMinutes fd.validityMinutes).isValid = false →
      shortenUrl s fd now newId gen =
        (.error ((validateValidityMinutes fd.validityMinutes).error.getD ""), s)) := by
  refine ⟨?_, ?_, ?_⟩
  · intro h1
    unfold shortenUrl
    rw [if_pos h1]
  · intro h1 h2
    unfold shortenUrl
    rw [if_neg (by simp [h1]), if_pos h2]
  · intro h1 h2 h3
    unfold shortenUrl
    rw [if_neg (by simp [h1]), if_neg (by simp [h2]), if_pos h3]

/-- C2 witness: a concrete non-HTTP URL fails the first validation, the
error surfaces, and the empty registry is untouched. -/
theorem shortenUrl_fail_fast_witness :
    shortenUrl emptyState
        { originalUrl := "ftp://x.com", validityMinutes := 30, preferredShortcode := "" }
        0 "id-a" "gen111" =
      (.error "URL must use HTTP or HTTPS protocol", emptyState) := by
  have h := (shortenUrl_fail_fast emptyState
    { originalUrl := "ftp://x.com", validityMinutes := 30, preferredShortcode := "" }
    0 "id-a" "gen111").1 (by decide)
  exact h

/-- C6: `getAllUrls` returns all stored records — a permutation of the
refreshed registry, which is the stored record list with every `isExpired`
flag recomputed — in `createdAt`-descending order, persists the refreshed
list, and calling it again on the resulting state with no intervening
mutation (same clock reading) returns the same records in the same order
and leaves the state fixed. -/
theorem getAllUrls_sorted_idempotent (s : UrlState) (now : Int) :
    (getAllUrls s now).1.Perm ((getAllUrls s now).2.urls) ∧
    (getAllUrls s now).2.urls = s.urls.map (refreshExpired now) ∧
    (getAllUrls s now).2.stored = (getAllUrls s now).2.urls ∧
    List.Sorted createdAtGe (getAllUrls s now).1 ∧
    getAllUrls (getAllUrls s now).2 now = getAllUrls s now := by
  have hmap : (s.urls.map (refreshExpired now)).map (refreshExpired now) =
      s.urls.map (refreshExpired now) := by
    rw [List.map_map]
    congr 1
  refine ⟨List.perm_insertionSort createdAtGe _, rfl, rfl,
    List.sorted_insertionSort createdAtGe _, ?_⟩
  show getAllUrls { urls := s.urls.map (refreshExpired now),
                    stored := s.urls.map (refreshExpired now) } now = getAllUrls s now
  unfold getAllUrls
  simp only [hmap]

/-- C7: after any sequence of log calls from a fresh logger, the primary
buffer is exactly the last 1000 appended entries in insertion order (FIFO
eviction of the oldest), so `getLogs` returns at most 1000 entries, and the
session mirror is exactly the last 100 entries pushed to it, never
exceeding 100. -/
theorem logBuffer_bounded (cs : List LogCall) :
    (runLogs initialLogger cs).logs = lastN 1000 (cs.map entryOf) ∧
    (getLogs (runLogs initialLogger cs)).length ≤ 1000 ∧
    (runLogs initialLogger cs).sessionLogs =
      lastN 100 ((cs.map sessionPushesOf).flatten) ∧
    (runLogs initialLogger cs).sessionLogs.length ≤ 100 := by
  have h1 := runLogs_logs cs initialLogger (by simp [initialLogger])
  have h2 := runLogs_sessionLogs cs initialLogger (by simp [initialLogger])
  rw [show initialLogger.logs = [] from rfl, List.nil_append] at h1
  rw [show initialLogger.sessionLogs = [] from rfl, List.nil_append] at h2
  exact ⟨h1, by rw [show getLogs (runLogs initialLogger cs) = (runLogs initialLogger cs).logs
      from rfl, h1]; exact lastN_length_le _ _,
    h2, by rw [h2]; exact lastN_length_le _ _⟩

/-- C10: `deleteUrl` on an absent shortcode returns `false` and performs no
write: the in-memory record set and the persisted snapshot are both
unchanged; when the code is present the record is removed and the shrunk
record set is persisted. -/
theorem deleteUrl_frame (s : UrlState) (code : String) :
    (s.urls.any (fun v => v.shortCode == code) = false →
      deleteUrl s code = (false, s)) ∧
    (s.urls.any (fun v => v.shortCode == code) = true →
      deleteUrl s code =
        (true, { urls := s.urls.eraseP (fun v => v.shortCode == code),
                 stored := s.urls.eraseP (fun v => v.shortCode == code) }) ∧
      (deleteUrl s code).2.stored = (deleteUrl s code).2.urls) := by
  constructor
  · intro h
    simp [deleteUrl, h]
  · intro h
    simp [deleteUrl, h]

/-- C10 witness: deleting a code absent from the concrete one-record
registry returns `false` and leaves the state untouched. -/
theorem deleteUrl_frame_witness : deleteUrl sampleState "zzz" = (false, sampleState) :=
  (deleteUrl_frame sampleState "zzz").1 (by decide)

/-- C1: when the URL, shortcode and validity validations all pass,
`shortenUrl` succeeds, and an immediate `getUrlByShortcode` on the assigned
code returns exactly the created record, whose `originalUrl` is the input,
whose `createdAt` is the creation clock reading, and whose `expiryDate`
equals `createdAt` plus `validityMinutes` minutes. -/
theorem create_then_resolve (s : UrlState) (fd : UrlFormData) (now : Int)
    (newId gen : String)
    (hu : (validateUrl fd.originalUrl).isValid = true)
    (hc : (validateShortcode s fd.preferredShortcode).isValid = true)
    (hv : (validateValidityMinutes fd.validityMinutes).isValid = true) :
    ∃ u s2, shortenUrl s fd now newId gen = (.ok u, s2) ∧
      getUrlByShortcode s2 u.shortCode now = (some u, s2) ∧
      u.originalUrl = fd.originalUrl ∧
      u.createdAt = now ∧
      u.expiryDate = u.createdAt + fd.validityMinutes * 60 * 1000 := by
  refine ⟨mkShortened fd now newId gen,
    { urls := mapSet s.urls (mkShortened fd now newId gen).shortCode (mkShortened fd now newId gen),
      stored := mapSet s.urls (mkShortened fd now newId gen).shortCode (mkShortened fd now newId gen) },
    ?_, ?_, rfl, rfl, rfl⟩
  · unfold shortenUrl
    rw [if_neg (by simp [hu]), if_neg (by simp [hc]), if_neg (by simp [hv])]
  · have hfind := find?_mapSet s.urls (mkShortened fd now newId gen)
    have hm := validateValidityMinutes_pos hv
    have hlive : ¬ (mkShortened fd now newId gen).expiryDate < now := by
      show ¬ now + fd.validityMinutes * 60 * 1000 < now
      omega
    exact getUrlByShortcode_live hfind hlive

/-- C1 witness: a concrete creation in the empty registry followed by an
immediate resolve at the same clock reading. -/
theorem create_then_resolve_witness :
    ∃ u s2, shortenUrl emptyState
        { originalUrl := "https://example.com", validityMinutes := 30,
          preferredShortcode := "abc" } 0 "id-1" "gen111" = (.ok u, s2) ∧
      getUrlByShortcode s2 u.shortCode 0 = (some u, s2) ∧
      u.originalUrl = "https://example.com" ∧
      u.createdAt = 0 ∧
      u.expiryDate = u.createdAt + 30 * 60 * 1000 :=
  create_then_resolve emptyState
    { originalUrl := "https://example.com", validityMinutes := 30,
      preferredShortcode := "abc" } 0 "id-1" "gen111"
    (by decide) (by decide) (by decide)

/-- C3: `validateShortcode` accepts the empty candidate; rejects a nonempty
candidate that is not strictly alphanumeric, or whose length is outside
3-20, with the format errors; rejects with the conflict error a well-formed
candidate equal to any stored record's `shortCode`, whatever that record's
`isExpired` flag; and consequently a second `shortenUrl` with the same
explicit preferred shortcode, right after a successful first one, fails
with the conflict error and changes nothing. -/
theorem validateShortcode_spec (s : UrlState) (c : String) (fd : UrlFormData)
    (now now2 : Int) (id1 gen1 id2 gen2 : String) :
    (validateShortcode s "" = { isValid := true, error := none }) ∧
    (c ≠ "" → c.toList.all isAlnumChar = false →
      validateShortcode s c =
        { isValid := false, error := some "Shortcode must contain only alphanumeric characters" }) ∧
    (c ≠ "" → c.toList.all isAlnumChar = true → (c.length < 3 ∨ 20 < c.length) →
      validateShortcode s c =
        { isValid := false, error := some "Shortcode must be between 3 and 20 characters" }) ∧
    (c ≠ "" → c.toList.all isAlnumChar = true → 3 ≤ c.length → c.length ≤ 20 →
      (∃ u ∈ s.urls, u.shortCode = c) →
      validateShortcode s c =
        { isValid := false, error := some "This shortcode is already taken" }) ∧
    (∀ u s2, fd.preferredShortcode ≠ "" →
      shortenUrl s fd now id1 gen1 = (.ok u, s2) →
      shortenUrl s2 fd now2 id2 gen2 =
        (.error "This shortcode is already taken", s2)) := by
  refine ⟨rfl, ?_, ?_, ?_, ?_⟩
  · intro hne hfmt
    unfold validateShortcode
    rw [if_neg hne, if_pos hfmt]
  · intro hne hfmt hlen
    unfold validateShortcode
    rw [if_neg hne, if_neg (by rw [hfmt]; decide),
      if_pos (by rcases hlen with h | h <;> simp [h])]
  · intro hne hfmt h3 h20 hmem
    obtain ⟨u, hu, hcode⟩ := hmem
    unfold validateShortcode
    rw [if_neg hne, if_neg (by rw [hfmt]; decide),
      if_neg (by simp only [Bool.or_eq_true, decide_eq_true_eq]; omega),
      if_pos (List.any_eq_true.mpr ⟨u, hu, by simp [hcode]⟩)]
  · intro u s2 hne hok
    obtain ⟨hu1, hc1, hv1, hueq, hs2⟩ := shortenUrl_ok_elim hok
    have hcode : u.shortCode = fd.preferredShortcode := by
      rw [hueq]
      simp [mkShortened, hne]
    obtain ⟨hfmt, h3, h20, _⟩ := validateShortcode_valid_inv hne hc1
    have hany2 : s2.urls.any (fun v => v.shortCode == fd.preferredShortcode) = true := by
      rw [hs2, ← hcode]
      exact any_mapSet s.urls u
    have hsv : validateShortcode s2 fd.preferredShortcode =
        { isValid := false, error := some "This shortcode is already taken" } := by
      unfold validateShortcode
      rw [if_neg hne, if_neg (by rw [hfmt]; decide),
        if_neg (by simp only [Bool.or_eq_true, decide_eq_true_eq]; omega),
        if_pos hany2]
    unfold shortenUrl
    rw [if_neg (by simp [hu1]), if_pos (by rw [hsv])]
    rw [hsv]
    rfl

/-- C3 witness: the conflict rejection at a concrete registry holding the
code "abc123", whose record is not expired-flagged. -/
theorem validateShortcode_spec_witness :
    validateShortcode sampleState "abc123" =
      { isValid := false, error := some "This shortcode is already taken" } := by
  have h := (validateShortcode_spec sampleState "abc123"
    { originalUrl := "https://example.com", validityMinutes := 1,
      preferredShortcode := "" } 0 0 "a" "b" "c" "d").2.2.2.1
  exact h (by decide) (by decide) (by decide) (by decide) ⟨sampleUrl, by decide, rfl⟩

/-- C4: for a stored shortcode, `getUrlByShortcode` returns the record and
leaves the state alone when the clock is not strictly past `expiryDate`;
when it is strictly past, the call flags the stored record expired,
persists the update, returns `none`, and the flagged record is still in the
registry and still appears in the `getAllUrls` listing. -/
theorem resolve_expiry_spec (s : UrlState) (code : String) (u : ShortenedUrl)
    (now : Int) (hfind : s.urls.find? (fun v => v.shortCode == code) = some u) :
    (¬ u.expiryDate < now → getUrlByShortcode s code now = (some u, s)) ∧
    (u.expiryDate < now →
      getUrlByShortcode s code now =
        (none, { urls := markExpired code s.urls, stored := markExpired code s.urls }) ∧
      { u with isExpired := true } ∈ markExpired code s.urls ∧
      { u with isExpired := true } ∈
        (getAllUrls { urls := markExpired code s.urls,
                      stored := markExpired code s.urls } now).1) := by
  refine ⟨fun hlive => getUrlByShortcode_live hfind hlive, fun hexp => ?_⟩
  have hmem : { u with isExpired := true } ∈ markExpired code s.urls :=
    mem_updateFirst hfind
  refine ⟨getUrlByShortcode_expired hfind hexp, hmem, ?_⟩
  have hperm := List.perm_insertionSort createdAtGe
    ((markExpired code s.urls).map (refreshExpired now))
  show { u with isExpired := true } ∈
    List.insertionSort createdAtGe ((markExpired code s.urls).map (refreshExpired now))
  rw [hperm.mem_iff]
  refine List.mem_map.mpr ⟨{ u with isExpired := true }, hmem, ?_⟩
  simp [refreshExpired, hexp]

/-- C4 witness: the concrete one-record registry, resolved before expiry. -/
theorem resolve_expiry_spec_witness :
    getUrlByShortcode sampleState "abc123" 0 = (some sampleUrl, sampleState) :=
  (resolve_expiry_spec sampleState "abc123" sampleUrl 0 (by decide)).1 (by decide)

/-- C5 counterexample: `recordClick` on a stored but just-expired shortcode
(stored with `isExpired = false`, clock past `expiryDate`) returns failure
yet mutates the registry: the record's `isExpired` flag flips and the
update is persisted, so the call is not free of side effects. -/
theorem recordClick_expired_mutates :
    (recordClick sampleState "abc123" "direct" 120000 "c1" "loc1").1 = false ∧
    (recordClick sampleState "abc123" "direct" 120000 "c1" "loc1").2 ≠ sampleState := by
  decide

/-- C5 (amended): `recordClick` on an absent shortcode returns failure with
the state untouched; on an expired shortcode it returns failure and appends
no `ClickRecord` — every record's click list is unchanged — though it flags
the stored record expired and persists that update; on a live shortcode it
appends exactly one `ClickRecord` carrying the call's timestamp, persists,
and returns success, so a sequence of such calls on a live record extends
its click list by exactly those clicks, in call order. -/
theorem recordClick_spec (s : UrlState) (code source : String) (now : Int)
    (cid loc : String) (u : ShortenedUrl) (calls : List ClickCall) :
    (s.urls.find? (fun v => v.shortCode == code) = none →
      recordClick s code source now cid loc = (false, s)) ∧
    (s.urls.find? (fun v => v.shortCode == code) = some u → u.expiryDate < now →
      recordClick s code source now cid loc =
        (false, { urls := markExpired code s.urls, stored := markExpired code s.urls }) ∧
      (markExpired code s.urls).map (fun v => v.clicks) =
        s.urls.map (fun v => v.clicks)) ∧
    (s.urls.find? (fun v => v.shortCode == code) = some u → ¬ u.expiryDate < now →
      recordClick s code source now cid loc =
        (true, { urls := updateFirst (fun v => v.shortCode == code)
                   (appendClick cid now source loc) s.urls,
                 stored := updateFirst (fun v => v.shortCode == code)
                   (appendClick cid now source loc) s.urls }) ∧
      appendClick cid now source loc u ∈
        updateFirst (fun v => v.shortCode == code) (appendClick cid now source loc) s.urls) ∧
    (s.urls.find? (fun v => v.shortCode == code) = some u →
      (∀ c ∈ calls, ¬ u.expiryDate < c.now) →
      ∃ w, (runClicks s code calls).urls.find? (fun v => v.shortCode == code) = some w ∧
        w.clicks = u.clicks ++ calls.map mkClickOf) := by
  refine ⟨?_, ?_, ?_, ?_⟩
  · intro hnone
    have hget : getUrlByShortcode s code now = (none, s) := by
      unfold getUrlByShortcode
      rw [hnone]
    unfold recordClick
    rw [hget]
  · intro hfind hexp
    refine ⟨?_, @map_clicks_updateFirst (fun v => v.shortCode == code)
      (fun v => { v with isExpired := true }) (fun v => rfl) s.urls⟩
    unfold recordClick
    rw [getUrlByShortcode_expired hfind hexp]
  · intro hfind hlive
    exact ⟨recordClick_live_step source now cid loc hfind hlive, mem_updateFirst hfind⟩
  · intro hfind hlive
    obtain ⟨w, hw, hclicks, _⟩ := runClicks_live code calls s u hfind hlive
    exact ⟨w, hw, hclicks⟩

/-- C5 witness: clicking a shortcode absent from the concrete registry
fails and changes nothing. -/
theorem recordClick_spec_witness :
    recordClick sampleState "zzz" "direct" 0 "c1" "loc1" = (false, sampleState) :=
  (recordClick_spec sampleState "zzz" "direct" 0 "c1" "loc1" sampleUrl []).1 (by decide)

/-- C8 counterexample: in a registry holding only the code "aaaaaa" an
unused 6-character alphanumeric code exists ("bbbbbb"), yet with the
constant draw stream the generation loop never returns on any fuel. -/
theorem generateShortcode_stuck :
    "bbbbbb".length = 6 ∧ "bbbbbb".toList.all isAlnumChar = true ∧
    "bbbbbb" ∉ ["aaaaaa"] ∧ ¬ GenTerminates ["aaaaaa"] constZeroStream := by
  refine ⟨rfl, by decide, by decide, ?_⟩
  rintro ⟨fuel, r, hr⟩
  rw [generate_nonterminating_aux fuel 0] at hr
  exact Option.noConfusion hr

/-- C8 (amended): for every registry and draw stream such that some
candidate the stream generates is unused, the `generateShortcode` loop
terminates and returns a 6-character alphanumeric token that equals no
stored shortcode. -/
theorem generateShortcode_fresh (codes : List String) (stream : Nat → Fin 62)
    (h : ∃ n, candidateAt stream n ∉ codes) :
    ∃ fuel r, generateShortcodeAux codes stream fuel 0 = some r ∧
      r.length = 6 ∧ r.toList.all isAlnumChar = true ∧ r ∉ codes := by
  have hspec := Nat.find_spec h
  refine ⟨Nat.find h + 1, candidateAt stream (0 + Nat.find h), ?_,
    candidateAt_length stream _, candidateAt_alnum stream _, by simpa using hspec⟩
  exact generateShortcodeAux_reaches codes stream (Nat.find h) 0
    (fun m hm => by simpa using Nat.find_min h hm)
    (by simpa using hspec)

/-- C8 witness: in the empty registry the very first candidate of the
constant stream is unused, and the loop returns it. -/
theorem generateShortcode_fresh_witness :
    ∃ fuel r, generateShortcodeAux [] constZeroStream fuel 0 = some r ∧
      r.length = 6 ∧ r.toList.all isAlnumChar = true ∧ r ∉ ([] : List String) :=
  generateShortcode_fresh [] constZeroStream ⟨0, by simp⟩

/-- C9: a `Log` call, whatever the delivery outcome, appends its entry to
the primary buffer (evicting only from the front) and the entry is the
buffer's last element; exactly one delivery attempt is made per call — a
failure never re-triggers one; and a failed delivery (non-2xx status or
transport error) is recorded only as an extra warn-level entry in the
session mirror, never in the primary buffer. -/
theorem log_fire_and_forget (s : LoggerState) (now stack : String)
    (level : LogLevel) (pkg msg : String) (ctx : Option String)
    (outcome : DeliveryOutcome) (now2 stack2 : String) :
    (Log s now stack level pkg msg ctx outcome now2 stack2).1.logs =
      lastN 1000 (s.logs ++ [mkLogEntry now stack level pkg msg ctx]) ∧
    (Log s now stack level pkg msg ctx outcome now2 stack2).1.logs.getLast? =
      some (mkLogEntry now stack level pkg msg ctx) ∧
    (Log s now stack level pkg msg ctx outcome now2 stack2).2 =
      [mkLogEntry now stack level pkg msg ctx] ∧
    (outcome = .success →
      (Log s now stack level pkg msg ctx outcome now2 stack2).1.sessionLogs =
        lastN 100 (s.sessionLogs ++ [mkLogEntry now stack level pkg msg ctx])) ∧
    (∀ st, outcome = .httpError st →
      (Log s now stack level pkg msg ctx outcome now2 stack2).1.sessionLogs =
        lastN 100 (s.sessionLogs ++ [mkLogEntry now stack level pkg msg ctx,
          deliveryFailureEntry now2 stack2 (some st) (mkLogEntry now stack level pkg msg ctx)]) ∧
      (deliveryFailureEntry now2 stack2 (some st)
        (mkLogEntry now stack level pkg msg ctx)).level = .warn) ∧
    (outcome = .transportError →
      (Log s now stack level pkg msg ctx outcome now2 stack2).1.sessionLogs =
        lastN 100 (s.sessionLogs ++ [mkLogEntry now stack level pkg msg ctx,
          deliveryFailureEntry now2 stack2 none (mkLogEntry now stack level pkg msg ctx)]) ∧
      (deliveryFailureEntry now2 stack2 none
        (mkLogEntry now stack level pkg msg ctx)).level = .warn) := by
  refine ⟨?_, ?_, ?_, ?_, ?_, ?_⟩
  · exact runLog_logs s ⟨now, stack, level, pkg, msg, ctx, outcome, now2, stack2⟩
  · rw [show (Log s now stack level pkg msg ctx outcome now2 stack2).1.logs =
        lastN 1000 (s.logs ++ [mkLogEntry now stack level pkg msg ctx]) from
      runLog_logs s ⟨now, stack, level, pkg, msg, ctx, outcome, now2, stack2⟩]
    exact lastN_concat_getLast? (by omega) _ _
  · cases outcome <;> rfl
  · intro h
    subst h
    exact runLog_sessionLogs s ⟨now, stack, level, pkg, msg, ctx, .success, now2, stack2⟩
  · intro st h
    subst h
    exact ⟨runLog_sessionLogs s ⟨now, stack, level, pkg, msg, ctx, .httpError st, now2, stack2⟩, rfl⟩
  · intro h
    subst h
    exact ⟨runLog_sessionLogs s ⟨now, stack, level, pkg, msg, ctx, .transportError, now2, stack2⟩, rfl⟩

/-- C9 witness: a concrete call against a fresh logger with a 500 response:
the entry is buffered, one POST is attempted, and the warn-level failure
entry lands only in the session mirror. -/
theorem log_fire_and_forget_witness :
    (Log initialLogger "t0" "tr" .info "frontend" "hello" none
        (.httpError 500) "t1" "tr2").1.sessionLogs =
      lastN 100 (initialLogger.sessionLogs ++ [mkLogEntry "t0" "tr" .info "frontend" "hello" none,
        deliveryFailureEntry "t1" "tr2" (some 500)
          (mkLogEntry "t0" "tr" .info "frontend" "hello" none)]) ∧
    (deliveryFailureEntry "t1" "tr2" (some 500)
      (mkLogEntry "t0" "tr" .info "frontend" "hello" none)).level = .warn :=
  (log_fire_and_forget initialLogger "t0" "tr" .info "frontend" "hello" none
    (.httpError 500) "t1" "tr2").2.2.2.2.1 500 rfl

end URLShortner
